import Mathlib

/-!
# Verification of the dot4gravity board-game engine

A shallow embedding of `pallets/ajuna-board/src/dot4gravity/mod.rs` and the
`TurnBasedGame` adapter of `pallets/ajuna-board/src/types.rs`, together with
theorems settling the specification claims about them.

Modelling conventions:
* `u8`/`u32` machine integers are embedded as `Nat`, with explicit saturation
  (`saturating_mul`/`saturating_add`) and explicit `% 2^16` where the source has
  them.  `saturating_sub` on `Nat` is plain `Nat` subtraction.
* A Rust abort (array index out of bounds, `expect` on a missing value, or an
  overflow-checked `u8` underflow) is modelled as `Option.none`; fallible
  engine calls therefore return `Option (Except GameError _)`.
* The board array `[[Cell; 10]; 10]` is embedded as a total function
  `Coordinates → Cell`; `get_cell?` carries the array bounds check (an
  out-of-bounds access is `none`, the Rust panic).  Call sites whose indices
  are statically within bounds read the function directly, exactly where the
  Rust array access cannot fail.
* The blake2 hash of `Game::hash_coordinates` is an external primitive
  (`sp_io`); the engine is parameterised by an abstract hash function
  `hashC : Coordinates → Salt → H`, so every theorem quantifies over it.
-/

namespace Dot4Gravity

/-- `INITIAL_SEED` from the source. -/
def INITIAL_SEED : Nat := 123456

/-- `INCREMENT` from the source. -/
def INCREMENT : Nat := 74

/-- `MULTIPLIER` from the source. -/
def MULTIPLIER : Nat := 75

/-- `MODULUS = Seed::pow(2, 16)` from the source. -/
def MODULUS : Nat := 2 ^ 16

/-- Largest value of the `u32` type `Seed`, the saturation bound of
`saturating_mul` / `saturating_add`. -/
def U32_MAX : Nat := 2 ^ 32 - 1

def BOARD_WIDTH : Nat := 10

def BOARD_HEIGHT : Nat := 10

def NUM_OF_PLAYERS : Nat := 2

def BOMB_AMOUNT_PER_PLAYER : Nat := 3

def BOMB_ENERGY_PER_PLAYER : Nat := 5

def NUM_OF_BLOCKS : Nat := 10

/-- `Cell`: a cell of the board (`PlayerIndex` is `u8`, embedded as `Nat`). -/
inductive Cell where
  | Empty : Cell
  | Block : Cell
  | Stone : Nat → Cell
deriving DecidableEq, Repr

/-- `Cell::is_stone_droppable`: `!matches!(self, Cell::Block | Cell::Stone(_))`. -/
def Cell.is_stone_droppable : Cell → Bool
  | .Empty => true
  | .Block => false
  | .Stone _ => false

/-- `matches!(…, Cell::Stone(_))` as used in `PowerLevel::detonate_cell`. -/
def Cell.is_stone : Cell → Bool
  | .Stone _ => true
  | _ => false

/-- `Coordinates`: a cell position, fields are `u8`. -/
structure Coordinates where
  row : Nat
  col : Nat
deriving DecidableEq, Repr

/-- The linear congruential generator closure inside `Coordinates::random`:
`MULTIPLIER.saturating_mul(seed).saturating_add(INCREMENT) % MODULUS`. -/
def lcg (seed : Nat) : Nat :=
  min (min (MULTIPLIER * seed) U32_MAX + INCREMENT) U32_MAX % MODULUS

/-- `Coordinates::random`: two generator steps give `seed1`, `seed2`; the
coordinate is `(seed1 % (BOARD_WIDTH - 1), seed2 % (BOARD_HEIGHT - 1))` and
`seed2` is returned as the advanced seed. -/
def Coordinates.random (seed : Nat) : Coordinates × Nat :=
  let random_seed_1 := lcg seed
  let random_seed_2 := lcg random_seed_1
  (⟨random_seed_1 % (BOARD_WIDTH - 1), random_seed_2 % (BOARD_HEIGHT - 1)⟩,
    random_seed_2)

/-- `Side`: the wall a stone is dropped from. -/
inductive Side where
  | North : Side
  | East : Side
  | South : Side
  | West : Side
deriving DecidableEq, Repr

/-- `Coordinates::is_opposite_cell`. -/
def Coordinates.is_opposite_cell (c : Coordinates) (side : Side) : Bool :=
  match side with
  | .North => c.row = BOARD_HEIGHT - 1
  | .East => c.col = 0
  | .South => c.row = 0
  | .West => c.col = BOARD_WIDTH - 1

/-- `Side::bound_coordinates`: the boundary cell addressed by a side and a
position along it. -/
def Side.bound_coordinates (side : Side) (position : Nat) : Coordinates :=
  match side with
  | .North => ⟨0, position⟩
  | .South => ⟨BOARD_HEIGHT - 1, position⟩
  | .West => ⟨position, 0⟩
  | .East => ⟨position, BOARD_WIDTH - 1⟩

/-- Modelled from the spec: `Coordinates::is_inside_board` lives in the
repository's `dot4gravity/traits.rs` (the `Bound` trait), which is not in the
sources provided.  The spec fixes a 10×10 board with coordinates `(row, col)`
each in `[0,10)` and "bounded addressing", so a coordinate is inside the board
iff both components are below the dimensions. -/
def Coordinates.is_inside_board (c : Coordinates) : Bool :=
  c.row < BOARD_HEIGHT && c.col < BOARD_WIDTH

/-- `PowerLevel`: blast radius tiers. -/
inductive PowerLevel where
  | One : PowerLevel
  | Two : PowerLevel
  | Three : PowerLevel
deriving DecidableEq, Repr

/-- `PowerLevel::can_use_level`. -/
def PowerLevel.can_use_level (lvl : PowerLevel) (energy : Nat) : Bool :=
  match lvl with
  | .One => energy ≥ 1
  | .Two => energy ≥ 2
  | .Three => energy ≥ 3

/-- `Board`: the `[[Cell; BOARD_WIDTH]; BOARD_HEIGHT]` array, as a total
function from coordinates to cells (`cells[row][col]` is `b ⟨row, col⟩`). -/
def Board : Type := Coordinates → Cell

/-- `Board::get_cell` with the array bounds check made explicit: `none` is the
Rust index-out-of-bounds panic. -/
def Board.get_cell? (b : Board) (p : Coordinates) : Option Cell :=
  if p.row < BOARD_HEIGHT ∧ p.col < BOARD_WIDTH then some (b p) else none

/-- `Board::update_cell` (all call sites in the engine write within bounds). -/
def Board.update_cell (b : Board) (p : Coordinates) (cell : Cell) : Board :=
  fun q => if q = p then cell else b q

/-- `Board::is_stone_droppable`: `position.is_inside_board() &&
self.get_cell(position).is_stone_droppable()`.  The `&&` short-circuits, so
the direct read `b p` is only reached in bounds. -/
def Board.is_stone_droppable (b : Board) (p : Coordinates) : Bool :=
  p.is_inside_board && (b p).is_stone_droppable

/-- `Board::new` / `Board::default`: all cells `Empty`. -/
def Board.newBoard : Board := fun _ => .Empty

/-- `GameError`: the engine's error kinds. -/
inductive GameError where
  | NoMoreBombsAvailable : GameError
  | InsufficientBombEnergy : GameError
  | InvalidBombCoordinates : GameError
  | InvalidStonePosition : GameError
  | NotPlayerTurn : GameError
  | NoPreviousPosition : GameError
  | GameAlreadyFinished : GameError
deriving DecidableEq, Repr

/-- `LastMove`. -/
structure LastMove (P : Type) where
  player : P
  side : Side
  position : Nat
deriving DecidableEq, Repr

/-- `GameState`.  The two-element arrays of the source (`players`,
`bomb_energy`, `bombs_placed`) are embedded as a pair, a two-element list and
a pair of lists respectively, matching how the source accesses them
(`players[i]` by index, `bomb_energy` only by iteration, `bombs_placed[i]` by
index).  `H` is the abstract hash value type. -/
structure GameState (P H : Type) where
  seed : Nat
  board : Board
  winner : Option P
  next_player : P
  players : P × P
  bomb_energy : List (P × Nat)
  bombs_placed : List H × List H
  last_move : Option (LastMove P)

section Engine

variable {P H S : Type} [DecidableEq P] [DecidableEq H]

/-- `GameState::is_player_in_game`. -/
def GameState.is_player_in_game (s : GameState P H) (p : P) : Bool :=
  s.bomb_energy.any fun e => e.1 = p

/-- `GameState::get_bomb_energy_for`. -/
def GameState.get_bomb_energy_for (s : GameState P H) (p : P) : Option Nat :=
  (s.bomb_energy.find? fun e => e.1 = p).map (·.2)

/-- `GameState::decrease_bomb_energy_for`: `*energy -= amount` for every entry
of `player`.  The `u8` subtraction cannot underflow at its only call site
(`can_use_level` has checked `energy ≥ amount`), so plain truncating `Nat`
subtraction is faithful there. -/
def GameState.decrease_bomb_energy_for (s : GameState P H) (p : P) (amount : Nat) :
    GameState P H :=
  { s with bomb_energy := s.bomb_energy.map fun e =>
      if e.1 = p then (e.1, e.2 - amount) else e }

/-- `GameState::is_player_turn`. -/
def GameState.is_player_turn (s : GameState P H) (p : P) : Bool :=
  s.next_player = p

/-- `GameState::player_index`: position of `p` in the two-element `players`
array; `none` is the `expect("game to always start with 2 players")` panic. -/
def GameState.player_index (s : GameState P H) (p : P) : Option Nat :=
  if s.players.1 = p then some 0 else if s.players.2 = p then some 1 else none

/-- `GameState::next_player()`: the entry of `players` after the current
`next_player`, wrapping mod 2; `none` is the
`expect("next player to be a subset of players")` panic. -/
def GameState.next_player_of (s : GameState P H) : Option P :=
  if s.players.1 = s.next_player then some s.players.2
  else if s.players.2 = s.next_player then some s.players.1
  else none

/-- `game_state.bombs_placed[i]` — only ever reached with `i` a result of
`player_index`, hence `0` or `1`. -/
def GameState.bombs_at (s : GameState P H) (i : Nat) : List H :=
  if i = 0 then s.bombs_placed.1 else s.bombs_placed.2

/-- Write `game_state.bombs_placed[i]` (same indexing discipline). -/
def GameState.set_bombs_at (s : GameState P H) (i : Nat) (l : List H) :
    GameState P H :=
  if i = 0 then { s with bombs_placed := (l, s.bombs_placed.2) }
  else { s with bombs_placed := (s.bombs_placed.1, l) }

/-- `PowerLevel::detonate_cell`: clear the cell if it holds a stone; `none` is
the out-of-bounds panic of the `get_cell` read. -/
def detonate_cell (s : GameState P H) (pos : Coordinates) : Option (GameState P H) :=
  match s.board.get_cell? pos with
  | none => none
  | some c =>
      if c.is_stone then some { s with board := s.board.update_cell pos .Empty }
      else some s

/-- The `u8` decrement `x - 1` in `PowerLevel::explode`: for `x = 0` it
underflows — a panic under overflow checks, and a wrap to `255` (an
out-of-board index on which the subsequent `get_cell` aborts) otherwise.
Either build aborts, modelled as `none`. -/
def u8_pred? (x : Nat) : Option Nat :=
  if x = 0 then none else some (x - 1)

/-- The level-2 part of `PowerLevel::explode`: the four orthogonal neighbours
of the epicenter, in source order. -/
def explode_ortho (s : GameState P H) (e : Coordinates) : Option (GameState P H) := do
  let s ← detonate_cell s ⟨e.row + 1, e.col⟩
  let s ← detonate_cell s ⟨e.row, e.col + 1⟩
  let r1 ← u8_pred? e.row
  let s ← detonate_cell s ⟨r1, e.col⟩
  let c1 ← u8_pred? e.col
  detonate_cell s ⟨e.row, c1⟩

/-- The level-3 part of `PowerLevel::explode`: the four diagonal neighbours,
in source order. -/
def explode_diag (s : GameState P H) (e : Coordinates) : Option (GameState P H) := do
  let s ← detonate_cell s ⟨e.row + 1, e.col + 1⟩
  let c1 ← u8_pred? e.col
  let s ← detonate_cell s ⟨e.row + 1, c1⟩
  let r1 ← u8_pred? e.row
  let s ← detonate_cell s ⟨r1, e.col + 1⟩
  detonate_cell s ⟨r1, c1⟩

/-- `PowerLevel::explode`: the level-1 detonation always fires at the
epicenter; levels 2 and 3 add the orthogonal, and level 3 also the diagonal,
neighbours. -/
def explode (lvl : PowerLevel) (s : GameState P H) (e : Coordinates) :
    Option (GameState P H) := do
  let s ← detonate_cell s e
  match lvl with
  | .One => some s
  | .Two => explode_ortho s e
  | .Three => do
      let s ← explode_ortho s e
      explode_diag s e

/-- `PowerLevel::decrease_bomb_energy`. -/
def decrease_bomb_energy (lvl : PowerLevel) (s : GameState P H) (p : P) :
    GameState P H :=
  s.decrease_bomb_energy_for p
    (match lvl with | .One => 1 | .Two => 2 | .Three => 3)

/-- `Game::can_place_bomb`.  The `player_index` call can abort (`expect`),
hence the `Option` layer. -/
def can_place_bomb (s : GameState P H) (p : P) : Option (Except GameError Unit) :=
  if s.winner.isSome then some (.error .GameAlreadyFinished)
  else if ¬s.is_player_turn p then some (.error .NotPlayerTurn)
  else
    match s.player_index p with
    | none => none
    | some i =>
        if (s.bombs_at i).length ≥ BOMB_AMOUNT_PER_PLAYER then
          some (.error .NoMoreBombsAvailable)
        else some (.ok ())

/-- `Game::can_detonate_bomb` (total: the energy lookup uses
`unwrap_or_default`). -/
def can_detonate_bomb (s : GameState P H) (p : P) (lvl : PowerLevel) :
    Except GameError Unit :=
  if s.winner.isSome then .error .GameAlreadyFinished
  else if ¬s.is_player_turn p then .error .NotPlayerTurn
  else if ¬lvl.can_use_level ((s.get_bomb_energy_for p).getD 0) then
    .error .InsufficientBombEnergy
  else .ok ()

/-- `Game::can_drop_stone`. -/
def can_drop_stone (s : GameState P H) (side : Side) (position : Nat) (p : P) :
    Except GameError Unit :=
  if s.winner.isSome then .error .GameAlreadyFinished
  else if ¬s.is_player_turn p then .error .NotPlayerTurn
  else if ¬s.board.is_stone_droppable (side.bound_coordinates position) then
    .error .InvalidStonePosition
  else .ok ()

/-- `Game::place_bomb` (parameterised by the abstract commitment hash
`hashC`).  Source order: validator chain, `player_index`, hash, duplicate
check, `try_push` (which fails when the bounded vector is full), advance
`next_player`. -/
def place_bomb (hashC : Coordinates → S → H) (s : GameState P H) (p : P)
    (coordinates : Coordinates) (salt : S) :
    Option (Except GameError (GameState P H)) :=
  match can_place_bomb s p with
  | none => none
  | some (.error e) => some (.error e)
  | some (.ok ()) =>
      match s.player_index p with
      | none => none
      | some i =>
          let coordinate_hash := hashC coordinates salt
          if coordinate_hash ∈ s.bombs_at i then some (.error .InvalidBombCoordinates)
          else if (s.bombs_at i).length ≥ BOMB_AMOUNT_PER_PLAYER then
            some (.error .NoMoreBombsAvailable)
          else
            let s1 := s.set_bombs_at i (s.bombs_at i ++ [coordinate_hash])
            match s1.next_player_of with
            | none => none
            | some np => some (.ok { s1 with next_player := np })

/-- `Game::detonate_bomb`.  Note: `player_index` and the commitment-membership
check come before the `can_detonate_bomb` validator chain. -/
def detonate_bomb (hashC : Coordinates → S → H) (s : GameState P H) (p : P)
    (coordinates : Coordinates) (salt : S) (power_level : PowerLevel) :
    Option (Except GameError (GameState P H)) :=
  match s.player_index p with
  | none => none
  | some i =>
      let coordinate_hash := hashC coordinates salt
      if coordinate_hash ∉ s.bombs_at i then some (.error .InvalidBombCoordinates)
      else
        match can_detonate_bomb s p power_level with
        | .error e => some (.error e)
        | .ok () =>
            match explode power_level s coordinates with
            | none => none
            | some s1 =>
                let s2 := decrease_bomb_energy power_level s1 p
                let s3 := s2.set_bombs_at i
                  ((s2.bombs_at i).filter fun h => h ≠ coordinate_hash)
                match s3.next_player_of with
                | none => none
                | some np => some (.ok { s3 with next_player := np })

/-- The `Side::North` arm of `Game::drop_stone`: scan rows `0,1,…,9` in the
entry column.  All reads are at `row ≤ 9` in a column `< 10` (guaranteed by
`can_drop_stone`), where the array access cannot fail. -/
def scan_north (b : Board) (pi : Nat) (col : Nat) : List Nat → Except GameError Board
  | [] => .ok b
  | r :: rs =>
      match b ⟨r, col⟩ with
      | .Empty =>
          if (Coordinates.mk r col).is_opposite_cell .North then
            .ok (b.update_cell ⟨r, col⟩ (.Stone pi))
          else scan_north b pi col rs
      | .Block =>
          if r > 0 then .ok (b.update_cell ⟨r - 1, col⟩ (.Stone pi))
          else .error .InvalidStonePosition
      | .Stone _ =>
          if r > 0 then .ok (b.update_cell ⟨r - 1, col⟩ (.Stone pi))
          else .error .InvalidStonePosition

/-- The `Side::East` arm: scan columns `9,8,…,0` in the entry row. -/
def scan_east (b : Board) (pi : Nat) (row : Nat) : List Nat → Except GameError Board
  | [] => .ok b
  | c :: cs =>
      match b ⟨row, c⟩ with
      | .Empty =>
          if (Coordinates.mk row c).is_opposite_cell .East then
            .ok (b.update_cell ⟨row, c⟩ (.Stone pi))
          else scan_east b pi row cs
      | .Block =>
          if c < BOARD_WIDTH - 1 then .ok (b.update_cell ⟨row, c + 1⟩ (.Stone pi))
          else .error .InvalidStonePosition
      | .Stone _ =>
          if c < BOARD_WIDTH - 1 then .ok (b.update_cell ⟨row, c + 1⟩ (.Stone pi))
          else .error .InvalidStonePosition

/-- The `Side::South` arm: scan rows `9,8,…,0` in the entry column. -/
def scan_south (b : Board) (pi : Nat) (col : Nat) : List Nat → Except GameError Board
  | [] => .ok b
  | r :: rs =>
      match b ⟨r, col⟩ with
      | .Empty =>
          if (Coordinates.mk r col).is_opposite_cell .South then
            .ok (b.update_cell ⟨r, col⟩ (.Stone pi))
          else scan_south b pi col rs
      | .Block =>
          if r < BOARD_HEIGHT - 1 then .ok (b.update_cell ⟨r + 1, col⟩ (.Stone pi))
          else .error .InvalidStonePosition
      | .Stone _ =>
          if r < BOARD_HEIGHT - 1 then .ok (b.update_cell ⟨r + 1, col⟩ (.Stone pi))
          else .error .InvalidStonePosition

/-- The `Side::West` arm: scan columns `0,1,…,9` in the entry row.  Note the
`Stone` arm's guard is `col < BOARD_WIDTH - 1` in the source — unlike the
`col > 0` of its own `Block` arm (`col - 1` is the source's
`saturating_sub`). -/
def scan_west (b : Board) (pi : Nat) (row : Nat) : List Nat → Except GameError Board
  | [] => .ok b
  | c :: cs =>
      match b ⟨row, c⟩ with
      | .Empty =>
          if (Coordinates.mk row c).is_opposite_cell .West then
            .ok (b.update_cell ⟨row, c⟩ (.Stone pi))
          else scan_west b pi row cs
      | .Block =>
          if c > 0 then .ok (b.update_cell ⟨row, c - 1⟩ (.Stone pi))
          else .error .InvalidStonePosition
      | .Stone _ =>
          if c < BOARD_WIDTH - 1 then .ok (b.update_cell ⟨row, c - 1⟩ (.Stone pi))
          else .error .InvalidStonePosition

/-- `squares[k]` read — `none` is the index-out-of-bounds panic for a stone
owner index `k ≥ 2`. -/
def squares_get (sq : Nat × Nat) (k : Nat) : Option Nat :=
  if k = 0 then some sq.1 else if k = 1 then some sq.2 else none

/-- `squares[k] = n` write (only reached after `squares_get` succeeded). -/
def squares_set (sq : Nat × Nat) (k : Nat) (n : Nat) : Nat × Nat :=
  if k = 0 then (n, sq.2) else (sq.1, n)

/-- `players[k]` read in `check_winner_player` (`none` = index panic). -/
def players_get (ps : P × P) (k : Nat) : Option P :=
  if k = 0 then some ps.1 else if k = 1 then some ps.2 else none

/-- One row of the `check_winner_player` scan: walk the window columns,
incrementing the owner's square count on each uniform 2×2 window; when a
count reaches 3 the owner is recorded as winner and the `break` ends this
row (only this row — the outer row loop continues). -/
def win_scan_row (b : Board) (ps : P × P) (row : Nat) :
    List Nat → Nat × Nat → Option P → Option ((Nat × Nat) × Option P)
  | [], sq, w => some (sq, w)
  | c :: cs, sq, w =>
      match b ⟨row, c⟩ with
      | .Stone k =>
          if b ⟨row, c + 1⟩ = .Stone k ∧ b ⟨row + 1, c⟩ = .Stone k ∧
              b ⟨row + 1, c + 1⟩ = .Stone k then
            match squares_get sq k with
            | none => none
            | some n =>
                let sq1 := squares_set sq k (n + 1)
                if n + 1 ≥ 3 then
                  match players_get ps k with
                  | none => none
                  | some wp => some (sq1, some wp)
                else win_scan_row b ps row cs sq1 w
          else win_scan_row b ps row cs sq w
      | _ => win_scan_row b ps row cs sq w

/-- The outer row loop of `check_winner_player`, threading the square counts
and the (possibly repeatedly overwritten) winner through the rows. -/
def win_scan_rows (b : Board) (ps : P × P) :
    List Nat → Nat × Nat → Option P → Option ((Nat × Nat) × Option P)
  | [], sq, w => some (sq, w)
  | r :: rs, sq, w =>
      match win_scan_row b ps r (List.range (BOARD_WIDTH - 1)) sq w with
      | none => none
      | some (sq1, w1) => win_scan_rows b ps rs sq1 w1

/-- `Game::check_winner_player`: return unchanged if a winner is already set,
else scan all 2×2 windows with top-left corner in rows `0–8`, columns `0–8`. -/
def check_winner_player (s : GameState P H) : Option (GameState P H) :=
  if s.winner.isSome then some s
  else
    match win_scan_rows s.board s.players (List.range (BOARD_HEIGHT - 1)) (0, 0) none with
    | none => none
    | some (_, w) => some { s with winner := w }

/-- `Game::drop_stone`: validator chain, `player_index`, the side-specific
scan, then record `last_move`, advance `next_player` and run the win
detector. -/
def drop_stone (s : GameState P H) (p : P) (side : Side) (position : Nat) :
    Option (Except GameError (GameState P H)) :=
  match can_drop_stone s side position p with
  | .error e => some (.error e)
  | .ok () =>
      match s.player_index p with
      | none => none
      | some pi =>
          let scanned : Except GameError Board :=
            match side with
            | .North => scan_north s.board pi position (List.range BOARD_HEIGHT)
            | .East => scan_east s.board pi position (List.range BOARD_WIDTH).reverse
            | .South => scan_south s.board pi position (List.range BOARD_HEIGHT).reverse
            | .West => scan_west s.board pi position (List.range BOARD_WIDTH)
          match scanned with
          | .error e => some (.error e)
          | .ok b =>
              let s1 := { s with board := b, last_move := some ⟨p, side, position⟩ }
              match s1.next_player_of with
              | none => none
              | some np =>
                  match check_winner_player { s1 with next_player := np } with
                  | none => none
                  | some s2 => some (.ok s2)

/-- The block-placement loop of `Game::new_game`, with explicit fuel: the
source `while remaining_blocks > 0` loop has no bound, so `none` means the
loop has not finished within `fuel` iterations. -/
def place_blocks (fuel : Nat) (board : Board) (blocks : List Coordinates)
    (remaining : Nat) (seed : Nat) : Option (Board × Nat) :=
  match fuel with
  | 0 => if remaining = 0 then some (board, seed) else none
  | fuel + 1 =>
      if remaining = 0 then some (board, seed)
      else
        let (block_coordinates, new_seed) := Coordinates.random seed
        if block_coordinates ∈ blocks then
          place_blocks fuel board blocks remaining new_seed
        else
          place_blocks fuel (board.update_cell block_coordinates .Block)
            (blocks ++ [block_coordinates]) (remaining - 1) new_seed

/-- `Game::new_game` (fuelled through `place_blocks`). -/
def new_game (p1 p2 : P) (seed? : Option Nat) (fuel : Nat) :
    Option (GameState P H) :=
  match place_blocks fuel Board.newBoard [] NUM_OF_BLOCKS (seed?.getD INITIAL_SEED) with
  | none => none
  | some (board, seed) =>
      some { seed := seed
             board := board
             winner := none
             next_player := p1
             players := (p1, p2)
             bomb_energy := [(p1, BOMB_ENERGY_PER_PLAYER), (p2, BOMB_ENERGY_PER_PLAYER)]
             bombs_placed := ([], [])
             last_move := none }

/-- `TurnBasedGame::abort` for the dot4gravity game (`types.rs`):
unconditionally overwrite the winner. -/
def abort (s : GameState P H) (winner : P) : GameState P H :=
  { s with winner := some winner }

/-- `TurnBasedGame::get_last_player` (`types.rs`): the `last_move` player, or
`next_player` when no move is recorded. -/
def get_last_player (s : GameState P H) : P :=
  match s.last_move with
  | some lm => lm.player
  | none => s.next_player

/-- Specification-side win detector, following the words of the spec (§4.7):
scan every 2×2 window in row-major order keeping a per-player count of
uniform windows, and the first player whose count reaches 3 is declared
winner immediately (the whole scan stops).  Written to be compared with the
source-derived `check_winner_player`. -/
def spec_first_to3 (b : Board) (ps : P × P) :
    List (Nat × Nat) → Nat × Nat → Option P
  | [], _ => none
  | (r, c) :: rest, sq =>
      match b ⟨r, c⟩ with
      | .Stone k =>
          if b ⟨r, c + 1⟩ = .Stone k ∧ b ⟨r + 1, c⟩ = .Stone k ∧
              b ⟨r + 1, c + 1⟩ = .Stone k then
            if k = 0 then
              if sq.1 + 1 ≥ 3 then some ps.1 else spec_first_to3 b ps rest (sq.1 + 1, sq.2)
            else if k = 1 then
              if sq.2 + 1 ≥ 3 then some ps.2 else spec_first_to3 b ps rest (sq.1, sq.2 + 1)
            else spec_first_to3 b ps rest sq
          else spec_first_to3 b ps rest sq
      | _ => spec_first_to3 b ps rest sq

/-- The row-major list of all 2×2 window corners, rows 0–8 × columns 0–8. -/
def window_corners : List (Nat × Nat) :=
  (List.range (BOARD_HEIGHT - 1)).flatMap fun r =>
    (List.range (BOARD_WIDTH - 1)).map fun c => (r, c)

/-- Specification-side winner of a board: `spec_first_to3` started with zero
counts on `window_corners`. -/
def spec_check_winner (b : Board) (ps : P × P) : Option P :=
  spec_first_to3 b ps window_corners (0, 0)

/-- Specification-side affected set of a detonation (claim C6): level One is
the epicenter alone; Two adds the four orthogonal neighbours; Three also the
four diagonal ones.  `Nat` subtraction is exact here because the set is only
used for epicenters with `1 ≤ row` and `1 ≤ col` at levels Two/Three. -/
def affected_set (lvl : PowerLevel) (e : Coordinates) : List Coordinates :=
  match lvl with
  | .One => [e]
  | .Two => [e, ⟨e.row + 1, e.col⟩, ⟨e.row, e.col + 1⟩,
      ⟨e.row - 1, e.col⟩, ⟨e.row, e.col - 1⟩]
  | .Three => [e, ⟨e.row + 1, e.col⟩, ⟨e.row, e.col + 1⟩,
      ⟨e.row - 1, e.col⟩, ⟨e.row, e.col - 1⟩,
      ⟨e.row + 1, e.col + 1⟩, ⟨e.row + 1, e.col - 1⟩,
      ⟨e.row - 1, e.col + 1⟩, ⟨e.row - 1, e.col - 1⟩]

/-- `clear_cell b q`: the board effect of `PowerLevel::detonate_cell` at an
in-bounds coordinate (stone becomes empty, anything else untouched). -/
def clear_cell (b : Board) (q : Coordinates) : Board :=
  if (b q).is_stone then b.update_cell q .Empty else b

/-- Folding `clear_cell` over a list of coordinates. -/
def clear_many (b : Board) (xs : List Coordinates) : Board :=
  xs.foldl clear_cell b

/-- The epicenter bounds under which the area effect of `explode` stays on
the board: the epicenter itself for level One, the full neighbourhood for
levels Two and Three. -/
def explode_in_bounds (lvl : PowerLevel) (e : Coordinates) : Prop :=
  match lvl with
  | .One => e.row < BOARD_HEIGHT ∧ e.col < BOARD_WIDTH
  | .Two | .Three =>
      1 ≤ e.row ∧ e.row ≤ BOARD_HEIGHT - 2 ∧ 1 ≤ e.col ∧ e.col ≤ BOARD_WIDTH - 2

/-- The invariant of the `check_winner_player` scan: an unset winner means
both square counts are still below 3, and a set winner is a player whose
count has reached 3. -/
def win_inv (ps : P × P) (sq : Nat × Nat) (w : Option P) : Prop :=
  (w = none → sq.1 < 3 ∧ sq.2 < 3) ∧
    ∀ x, w = some x → (x = ps.1 ∧ 3 ≤ sq.1) ∨ (x = ps.2 ∧ 3 ≤ sq.2)

end Engine

/-! ### Concrete instances used by counterexamples and witnesses

Players are `Nat` (`11` and `22`, as in the repository's own tests), salts
are `Nat`, and the abstract commitment hash is instantiated with an explicit
injective mixing function (the engine only ever compares hash values for
equality). -/

/-- A concrete stand-in for the blake2-based `Game::hash_coordinates`. -/
def hashN : Coordinates → Nat → Nat :=
  fun c salt => (c.row * BOARD_WIDTH + c.col) * 1000000 + salt

/-- Build a board from a row-major list of rows (missing cells are empty). -/
def boardOf (cells : List (List Cell)) : Board :=
  fun p => (((cells.get? p.row).bind (·.get? p.col)).getD .Empty)

/-- A fresh two-player state over a given board: players 11 and 22, player 11
to move, full energy, no bombs, no winner, no last move. -/
def base_state (b : Board) : GameState Nat Nat :=
  { seed := 0, board := b, winner := none, next_player := 11,
    players := (11, 22), bomb_energy := [(11, 5), (22, 5)],
    bombs_placed := ([], []), last_move := none }

/-- Project the winner out of an engine call result (`none` when the call
aborted or returned an error). -/
def winner_of : Option (Except GameError (GameState Nat Nat)) → Option (Option Nat)
  | some (.ok s) => some s.winner
  | _ => none

/-- Project the spec-side first-to-three winner of the resulting board out of
an engine call result. -/
def spec_winner_of : Option (Except GameError (GameState Nat Nat)) → Option (Option Nat)
  | some (.ok s) => some (spec_check_winner s.board (11, 22))
  | _ => none

/-- C5 scenario: the single stone sits at the far (west-opposite) wall
`(0,9)`; every other cell of row 0 is empty. -/
def west_bug_state : GameState Nat Nat :=
  base_state fun p => if p = ⟨0, 9⟩ then .Stone 1 else .Empty

/-- C3 scenario: player 11 holds a commitment for the edge cell `(9,0)`. -/
def edge_bomb_state : GameState Nat Nat :=
  { base_state Board.newBoard with bombs_placed := ([hashN ⟨9, 0⟩ 7], []) }

/-- C6 scenario: player 11 holds a commitment for the corner `(0,0)`; a stone
of player 22 sits next to it. -/
def corner_bomb_state : GameState Nat Nat :=
  { base_state (fun p => if p = ⟨0, 1⟩ then .Stone 1 else .Empty) with
    bombs_placed := ([hashN ⟨0, 0⟩ 7], []) }

/-- C1 scenario, before the move: player 11 (index 0) owns two complete 2×2
squares in rows 0–1 plus an almost-complete third in rows 1–2, and player 22
(index 1) owns three complete squares in rows 4–6; no winner is set yet. -/
def c1_pre_state : GameState Nat Nat :=
  base_state (boardOf
    [[.Stone 0, .Stone 0, .Stone 0, .Stone 0],
     [.Stone 0, .Stone 0, .Stone 0, .Stone 0],
     [.Empty, .Stone 0],
     [],
     [.Stone 1, .Stone 1, .Stone 1, .Stone 1],
     [.Stone 1, .Stone 1, .Stone 1, .Stone 1],
     [.Stone 1, .Stone 1]])

/-- A state in which player 11 has already been recorded as winner. -/
def finished_state : GameState Nat Nat :=
  { base_state Board.newBoard with winner := some 11 }

/-- C4 witness scenario: the off-turn player 22 holds a commitment. -/
def c4_wit_state : GameState Nat Nat :=
  { base_state Board.newBoard with bombs_placed := ([], [hashN ⟨4, 4⟩ 9]) }

/-- C9 witness scenario: player 11 holds one commitment, for `(5,5)`. -/
def c9_wit_state : GameState Nat Nat :=
  { base_state Board.newBoard with bombs_placed := ([hashN ⟨5, 5⟩ 7], []) }

/-- The state produced by the C9 witness detonation. -/
def c9_wit_result : GameState Nat Nat :=
  match detonate_bomb hashN c9_wit_state 11 ⟨5, 5⟩ 7 .One with
  | some (.ok s) => s
  | _ => c9_wit_state

/-- C1 witness scenario: only player 11 (index 0) has scoring windows: three
disjoint 2×2 squares. -/
def c1_wit_board : Board :=
  boardOf
    [[],
     [.Empty, .Empty, .Stone 0, .Stone 0],
     [.Empty, .Empty, .Stone 0, .Stone 0],
     [],
     [.Empty, .Empty, .Empty, .Empty, .Empty, .Stone 0, .Stone 0],
     [.Empty, .Empty, .Empty, .Empty, .Empty, .Stone 0, .Stone 0],
     [.Empty, .Empty, .Empty, .Stone 0, .Stone 0],
     [.Empty, .Empty, .Empty, .Stone 0, .Stone 0]]

/-- C10 witness scenario: a state whose `last_move` records a stone drop by
player 22. -/
def c10_wit_state : GameState Nat Nat :=
  { base_state Board.newBoard with last_move := some ⟨22, .North, 3⟩ }

/-- The state produced by the C10 witness bomb placement. -/
def c10_wit_result : GameState Nat Nat :=
  match place_bomb hashN c10_wit_state 11 ⟨2, 2⟩ 5 with
  | some (.ok s) => s
  | _ => c10_wit_state

/-- The state produced by the C10 witness detonation (after `c10_wit_state`
is given a commitment for `(5,5)`). -/
def c10_det_state : GameState Nat Nat :=
  { c10_wit_state with bombs_placed := ([hashN ⟨5, 5⟩ 7], []) }

def c10_det_result : GameState Nat Nat :=
  match detonate_bomb hashN c10_det_state 11 ⟨5, 5⟩ 7 .One with
  | some (.ok s) => s
  | _ => c10_det_state

/-- C6 witness scenario: stones of both players fill rows 4–6, columns 4–6. -/
def c6_wit_state : GameState Nat Nat :=
  base_state fun p =>
    if 4 ≤ p.row ∧ p.row ≤ 6 ∧ 4 ≤ p.col ∧ p.col ≤ 6 then .Stone (p.row % 2) else .Empty

/-- Equality of every `GameState` field except the board — the shape of the
frame condition of `detonate_cell` and `explode`, which only rewrite board
cells. -/
def non_board_eq {P H : Type} (s t : GameState P H) : Prop :=
  t.seed = s.seed ∧ t.winner = s.winner ∧ t.next_player = s.next_player ∧
    t.players = s.players ∧ t.bomb_energy = s.bomb_energy ∧
    t.bombs_placed = s.bombs_placed ∧ t.last_move = s.last_move

/-! ## Supporting lemmas -/

/-- `65535` is a fixed point of the generator, and the coordinate it draws is
always `(6,6)`. -/
lemma random_65535 : Coordinates.random 65535 = (⟨6, 6⟩, 65535) := by decide

/-- Once the drawn coordinate `(6,6)` is among the placed blocks and blocks
remain to be placed, the placement loop at seed `65535` can consume any
amount of fuel without finishing. -/
lemma place_blocks_stuck (fuel : Nat) : ∀ (b : Board) (blocks : List Coordinates)
    (r : Nat), r ≠ 0 → (⟨6, 6⟩ : Coordinates) ∈ blocks →
    place_blocks fuel b blocks r 65535 = none := by
  induction fuel with
  | zero =>
      intro b blocks r hr _
      simp [place_blocks, hr]
  | succ n ih =>
      intro b blocks r hr hm
      rw [place_blocks, if_neg hr, random_65535]
      simpa [hm] using ih b blocks r hr hm

/-! ## Claims -/

/-- **C2** (the claim is false of the code): with seed `65535` — a fixed
point of the saturating LCG, which therefore draws the coordinate `(6,6)` on
every iteration — `new_game` never terminates: no amount of fuel makes the
block-placement loop finish, so it never places 10 blocks. -/
theorem C2_new_game_never_terminates_on_seed_65535 (fuel : Nat) :
    new_game (P := Nat) (H := Nat) 11 22 (some 65535) fuel = none := by
  have h : place_blocks fuel Board.newBoard [] NUM_OF_BLOCKS 65535 = none := by
    cases fuel with
    | zero => rfl
    | succ n =>
        rw [place_blocks]
        norm_num [NUM_OF_BLOCKS, random_65535]
        exact place_blocks_stuck n _ _ 9 (by decide) (List.mem_singleton.mpr rfl)
  simp [new_game, h]

/-- **C3** (the code aborts where the claim promises a defined error): a
detonation whose committed epicenter `(9,0)` lies on the board edge, at power
level Two, passes every validator (commitment present, game unfinished,
mover's turn, enough energy) and then aborts with an out-of-bounds board
access at row 10 — it returns neither a state nor a `GameError`. -/
theorem C3_detonate_edge_epicenter_aborts :
    edge_bomb_state.player_index 11 = some 0 ∧
    hashN ⟨9, 0⟩ 7 ∈ edge_bomb_state.bombs_at 0 ∧
    can_detonate_bomb edge_bomb_state 11 PowerLevel.Two = .ok () ∧
    detonate_bomb hashN edge_bomb_state 11 ⟨9, 0⟩ 7 .Two = none :=
  ⟨rfl, by decide, rfl, rfl⟩

/-- **C5** (the code errors where the claim places a stone): dropping from
the West at row 0 of `west_bug_state` — whose first nine cells are empty and
whose far boundary cell `(0,9)` holds a stone — fails with
`InvalidStonePosition` although the entry cell is empty; the claim (and the
source's own `Block` arm, and the mirrored East side) settle the stone in the
last empty cell `(0,8)` instead. -/
theorem C5_drop_west_far_wall_stone_errors :
    west_bug_state.board ⟨0, 9⟩ = Cell.Stone 1 ∧
    ((List.range 9).map fun c => west_bug_state.board ⟨0, c⟩) =
      List.replicate 9 .Empty ∧
    drop_stone west_bug_state 11 .West 0 = some (.error .InvalidStonePosition) :=
  ⟨rfl, by decide, rfl⟩

/-- **C8 counterexample**: for the 32-bit seed `57266231` the saturating
multiplication clamps at `u32::MAX`, so the step yields `65535` and not
`(75 × 57266231 + 74) mod 65536 = 103` as the claim states. -/
theorem C8_counterexample_saturated_seed :
    lcg 57266231 ≠ (MULTIPLIER * 57266231 + INCREMENT) % MODULUS := by decide

/-- **C4 counterexample**: a detonation submitted by the off-turn player 22
with no matching commitment fails with `InvalidBombCoordinates` — the
commitment check precedes the turn check — not with `NotPlayerTurn` as the
claim states. -/
theorem C4_counterexample_wrong_turn_detonation_error :
    (base_state Board.newBoard).winner = none ∧
    (base_state Board.newBoard).is_player_turn 22 = false ∧
    detonate_bomb hashN (base_state Board.newBoard) 22 ⟨0, 0⟩ 7 .One =
      some (.error .InvalidBombCoordinates) ∧
    GameError.InvalidBombCoordinates ≠ GameError.NotPlayerTurn :=
  ⟨rfl, by decide, rfl, by decide⟩

/-- **C7 counterexample**: `abort` on a state whose winner is already player
11 replaces the winner with player 22. -/
theorem C7_counterexample_abort_overwrites_winner :
    finished_state.winner = some 11 ∧
    (abort finished_state 22).winner = some 22 ∧
    (some 22 : Option Nat) ≠ some 11 :=
  ⟨rfl, rfl, by decide⟩

/-- **C1 counterexample**: player 11's stone drop completes their third
scoring window, which occurs earlier in row-major order than player 22's
third window — yet the engine declares player 22 the winner (the `break`
only leaves the row, and a later row lets 22's count reach 3 and overwrite
the winner), while the spec's first-to-three scan declares player 11. -/
theorem C1_counterexample_scan_tiebreak_reversed :
    winner_of (drop_stone c1_pre_state 11 .West 2) = some (some 22) ∧
    spec_winner_of (drop_stone c1_pre_state 11 .West 2) = some (some 11) :=
  ⟨rfl, rfl⟩

/-- **C6 counterexample**: a fully valid detonation (commitment present, game
unfinished, mover's turn, enough energy) at the corner epicenter `(0,0)` with
power level Two aborts — the `row - 1` neighbour underflows `u8` — so no
board with the claimed area effect results. -/
theorem C6_counterexample_corner_detonation_aborts :
    corner_bomb_state.player_index 11 = some 0 ∧
    hashN ⟨0, 0⟩ 7 ∈ corner_bomb_state.bombs_at 0 ∧
    can_detonate_bomb corner_bomb_state 11 PowerLevel.Two = .ok () ∧
    detonate_bomb hashN corner_bomb_state 11 ⟨0, 0⟩ 7 .Two = none :=
  ⟨rfl, by decide, rfl, rfl⟩

/-- **C8** (amended): whenever `75·s + 74` fits in `u32` (so the saturating
arithmetic is exact — in particular for every value the generator itself
produces, which is below `2^16`), one RNG step is `(75·s + 74) mod 65536`;
a coordinate draw applies the step twice giving `seed1`, `seed2`, with
`row = seed1 mod 9` and `col = seed2 mod 9` — both below 9, never 9 — and
returns `seed2` as the advanced seed. -/
theorem C8_lcg_step (s : Nat) (h : MULTIPLIER * s + INCREMENT ≤ U32_MAX) :
    lcg s = (MULTIPLIER * s + INCREMENT) % MODULUS ∧
    lcg (lcg s) = (MULTIPLIER * lcg s + INCREMENT) % MODULUS ∧
    (Coordinates.random s).1.row = lcg s % 9 ∧
    (Coordinates.random s).1.col = lcg (lcg s) % 9 ∧
    (Coordinates.random s).2 = lcg (lcg s) ∧
    (Coordinates.random s).1.row < 9 ∧ (Coordinates.random s).1.col < 9 := by
  have hmul : MULTIPLIER * s ≤ U32_MAX := le_trans (Nat.le_add_right _ _) h
  have h1 : lcg s = (MULTIPLIER * s + INCREMENT) % MODULUS := by
    unfold lcg
    rw [Nat.min_eq_left hmul, Nat.min_eq_left h]
  have hlt : lcg s ≤ 65535 := by
    rw [h1]
    have e : MODULUS = 65536 := rfl
    have hm : (MULTIPLIER * s + INCREMENT) % MODULUS < MODULUS :=
      Nat.mod_lt _ (by rw [e]; norm_num)
    rw [e] at hm ⊢
    omega
  have h2small : MULTIPLIER * lcg s + INCREMENT ≤ U32_MAX := by
    have : MULTIPLIER * lcg s + INCREMENT ≤ 75 * 65535 + 74 := by
      simp only [MULTIPLIER, INCREMENT]
      omega
    simp only [U32_MAX]
    omega
  have h2 : lcg (lcg s) = (MULTIPLIER * lcg s + INCREMENT) % MODULUS := by
    set t := lcg s with ht
    unfold lcg
    rw [Nat.min_eq_left (le_trans (Nat.le_add_right _ _) h2small),
      Nat.min_eq_left h2small]
  refine ⟨h1, h2, ?_, ?_, ?_, ?_, ?_⟩
  all_goals simp [Coordinates.random, BOARD_WIDTH, BOARD_HEIGHT]
  all_goals omega

/-- **C8 witness**: the amended step equation at the default seed. -/
theorem C8_witness :
    MULTIPLIER * 123456 + INCREMENT ≤ U32_MAX ∧
    lcg 123456 = (MULTIPLIER * 123456 + INCREMENT) % MODULUS :=
  ⟨by decide, (C8_lcg_step 123456 (by decide)).1⟩

/-- **C4** (amended): in an unfinished game, a move by a player who is not
next-to-move is rejected with `NotPlayerTurn` for `place_bomb` and
`drop_stone` always, and for `detonate_bomb` provided the mover holds a
matching commitment (when no commitment matches, the commitment check fires
first and the error is `InvalidBombCoordinates`, as the counterexample
shows); an error means no new state is produced. -/
theorem C4_wrong_player_rejected {P H S : Type} [DecidableEq P] [DecidableEq H]
    (hashC : Coordinates → S → H) (s : GameState P H) (p : P) (c : Coordinates)
    (salt : S) (side : Side) (pos : Nat) (lvl : PowerLevel) (i : Nat)
    (hw : s.winner = none) (ht : s.is_player_turn p = false) :
    place_bomb hashC s p c salt = some (.error .NotPlayerTurn) ∧
    drop_stone s p side pos = some (.error .NotPlayerTurn) ∧
    (s.player_index p = some i → hashC c salt ∈ s.bombs_at i →
      detonate_bomb hashC s p c salt lvl = some (.error .NotPlayerTurn)) := by
  have hcp : can_place_bomb s p = some (.error .NotPlayerTurn) := by
    simp [can_place_bomb, hw, ht]
  have hcs : can_drop_stone s side pos p = .error .NotPlayerTurn := by
    simp [can_drop_stone, hw, ht]
  refine ⟨by simp [place_bomb, hcp], by simp [drop_stone, hcs], fun hidx hmem => ?_⟩
  have hcd : can_detonate_bomb s p lvl = .error .NotPlayerTurn := by
    simp [can_detonate_bomb, hw, ht]
  simp [detonate_bomb, hidx, hmem, hcd]

/-- **C4 witness**: the off-turn player 22 holds a commitment for `(4,4)`;
both their bomb placement and their detonation fail with `NotPlayerTurn`. -/
theorem C4_witness :
    c4_wit_state.winner = none ∧ c4_wit_state.is_player_turn 22 = false ∧
    place_bomb hashN c4_wit_state 22 ⟨4, 4⟩ 9 = some (.error .NotPlayerTurn) ∧
    detonate_bomb hashN c4_wit_state 22 ⟨4, 4⟩ 9 .One =
      some (.error .NotPlayerTurn) := by
  have h := C4_wrong_player_rejected hashN c4_wit_state 22 ⟨4, 4⟩ 9 .North 0 .One 1
    rfl (by decide)
  exact ⟨rfl, by decide, h.1, h.2.2 (by decide) (by decide)⟩

/-- **C7** (amended): the engine operations never clear or change a set
winner — `place_bomb` and `drop_stone` are rejected with
`GameAlreadyFinished`, `detonate_bomb` is rejected with
`InvalidBombCoordinates` or `GameAlreadyFinished`, and the win detector
returns the state untouched — but the adapter's `abort` unconditionally
overwrites the winner field, as the counterexample shows. -/
theorem C7_engine_never_changes_set_winner {P H S : Type} [DecidableEq P]
    [DecidableEq H] (hashC : Coordinates → S → H) (s : GameState P H)
    (w w' p : P) (c : Coordinates) (salt : S) (side : Side) (pos : Nat)
    (lvl : PowerLevel) (i : Nat) (hw : s.winner = some w) :
    place_bomb hashC s p c salt = some (.error .GameAlreadyFinished) ∧
    drop_stone s p side pos = some (.error .GameAlreadyFinished) ∧
    check_winner_player s = some s ∧
    (s.player_index p = some i →
      detonate_bomb hashC s p c salt lvl = some (.error .InvalidBombCoordinates) ∨
      detonate_bomb hashC s p c salt lvl = some (.error .GameAlreadyFinished)) ∧
    (abort s w').winner = some w' := by
  have hcp : can_place_bomb s p = some (.error .GameAlreadyFinished) := by
    simp [can_place_bomb, hw]
  have hcs : can_drop_stone s side pos p = .error .GameAlreadyFinished := by
    simp [can_drop_stone, hw]
  refine ⟨by simp [place_bomb, hcp], by simp [drop_stone, hcs],
    by simp [check_winner_player, hw], fun hidx => ?_, rfl⟩
  by_cases hm : hashC c salt ∈ s.bombs_at i
  · right
    have hcd : can_detonate_bomb s p lvl = .error .GameAlreadyFinished := by
      simp [can_detonate_bomb, hw]
    simp [detonate_bomb, hidx, hm, hcd]
  · left
    simp [detonate_bomb, hidx, hm]

/-- **C7 witness**: on `finished_state` (winner 11), placement is rejected
with `GameAlreadyFinished` and the win detector is the identity. -/
theorem C7_witness :
    finished_state.winner = some 11 ∧
    place_bomb hashN finished_state 11 ⟨1, 1⟩ 3 =
      some (.error .GameAlreadyFinished) ∧
    check_winner_player finished_state = some finished_state := by
  have h := C7_engine_never_changes_set_winner hashN finished_state 11 22 11
    ⟨1, 1⟩ 3 .North 0 .One 0 rfl
  exact ⟨rfl, h.1, h.2.2.1⟩

/-- Clearing a list of pairwise distinct cells acts cell-wise: a stone inside
the list becomes empty, everything else is untouched. -/
lemma clear_many_spec (xs : List Coordinates) : ∀ (b : Board) (p : Coordinates),
    xs.Nodup →
    clear_many b xs p = if p ∈ xs ∧ (b p).is_stone then Cell.Empty else b p := by
  induction xs with
  | nil => intro b p _; simp [clear_many]
  | cons x xs ih =>
      intro b p hnd
      obtain ⟨hx, hxs⟩ := List.nodup_cons.mp hnd
      have hstep : clear_many b (x :: xs) p = clear_many (clear_cell b x) xs p := rfl
      rw [hstep, ih (clear_cell b x) p hxs]
      by_cases hpx : p = x
      · subst hpx
        have hmem : p ∉ xs := hx
        simp only [hmem, false_and, if_false, List.mem_cons, true_or, true_and]
        unfold clear_cell Board.update_cell
        by_cases hs : (b p).is_stone <;> simp [hs]
      · have hcp : clear_cell b x p = b p := by
          unfold clear_cell Board.update_cell
          by_cases hs : (b x).is_stone <;> simp [hs, hpx]
        simp [hcp, List.mem_cons, hpx]

/-- An in-bounds `detonate_cell` succeeds and acts as `clear_cell`. -/
lemma detonate_cell_eq {P H : Type} (s : GameState P H) (q : Coordinates)
    (hr : q.row < BOARD_HEIGHT) (hc : q.col < BOARD_WIDTH) :
    detonate_cell s q = some { s with board := clear_cell s.board q } := by
  unfold detonate_cell Board.get_cell? clear_cell
  rw [if_pos ⟨hr, hc⟩]
  by_cases hs : (s.board q).is_stone <;> simp [hs]

/-- `u8_pred?` on a positive value. -/
lemma u8_pred_pos {x : Nat} (h : 0 < x) : u8_pred? x = some (x - 1) :=
  if_neg (by omega)

/-- A level-One explosion at an in-board epicenter clears exactly that cell. -/
lemma explode_one_eq {P H : Type} (s : GameState P H) (e : Coordinates)
    (h : explode_in_bounds .One e) :
    explode .One s e = some { s with board := clear_many s.board (affected_set .One e) } := by
  obtain ⟨h1, h2⟩ := h
  unfold explode
  rw [detonate_cell_eq s e h1 h2]
  simp [clear_many, affected_set]

/-- A level-Two explosion whose whole neighbourhood is on the board clears
the epicenter and its four orthogonal neighbours in source order. -/
lemma explode_two_eq {P H : Type} (s : GameState P H) (e : Coordinates)
    (h : explode_in_bounds .Two e) :
    explode .Two s e = some { s with board := clear_many s.board (affected_set .Two e) } := by
  have hb : 1 ≤ e.row ∧ e.row ≤ 8 ∧ 1 ≤ e.col ∧ e.col ≤ 8 := by
    unfold explode_in_bounds BOARD_HEIGHT BOARD_WIDTH at h
    exact_mod_cast h
  obtain ⟨h1, h2, h3, h4⟩ := hb
  have hH : ∀ r : Nat, r ≤ 9 → r < BOARD_HEIGHT := by
    intro r hr; unfold BOARD_HEIGHT; omega
  have hW : ∀ c : Nat, c ≤ 9 → c < BOARD_WIDTH := by
    intro c hc; unfold BOARD_WIDTH; omega
  unfold explode explode_ortho
  rw [detonate_cell_eq s e (hH _ (by omega)) (hW _ (by omega))]
  simp only [Option.bind_eq_bind, Option.some_bind']
  rw [detonate_cell_eq _ ⟨e.row + 1, e.col⟩ (hH _ (by (try dsimp only); omega)) (hW _ (by (try dsimp only); omega))]
  simp only [Option.bind_eq_bind, Option.some_bind']
  rw [detonate_cell_eq _ ⟨e.row, e.col + 1⟩ (hH _ (by (try dsimp only); omega)) (hW _ (by (try dsimp only); omega))]
  simp only [Option.bind_eq_bind, Option.some_bind']
  rw [u8_pred_pos h1]
  simp only [Option.bind_eq_bind, Option.some_bind']
  rw [detonate_cell_eq _ ⟨e.row - 1, e.col⟩ (hH _ (by (try dsimp only); omega)) (hW _ (by (try dsimp only); omega))]
  simp only [Option.bind_eq_bind, Option.some_bind']
  rw [u8_pred_pos h3]
  simp only [Option.bind_eq_bind, Option.some_bind']
  rw [detonate_cell_eq _ ⟨e.row, e.col - 1⟩ (hH _ (by (try dsimp only); omega)) (hW _ (by (try dsimp only); omega))]
  simp [clear_many, affected_set]

/-- A level-Three explosion whose whole neighbourhood is on the board clears
the epicenter and all eight neighbours in source order. -/
lemma explode_three_eq {P H : Type} (s : GameState P H) (e : Coordinates)
    (h : explode_in_bounds .Three e) :
    explode .Three s e = some { s with board := clear_many s.board (affected_set .Three e) } := by
  have hb : 1 ≤ e.row ∧ e.row ≤ 8 ∧ 1 ≤ e.col ∧ e.col ≤ 8 := by
    unfold explode_in_bounds BOARD_HEIGHT BOARD_WIDTH at h
    exact_mod_cast h
  obtain ⟨h1, h2, h3, h4⟩ := hb
  have hH : ∀ r : Nat, r ≤ 9 → r < BOARD_HEIGHT := by
    intro r hr; unfold BOARD_HEIGHT; omega
  have hW : ∀ c : Nat, c ≤ 9 → c < BOARD_WIDTH := by
    intro c hc; unfold BOARD_WIDTH; omega
  unfold explode explode_ortho explode_diag
  rw [detonate_cell_eq s e (hH _ (by omega)) (hW _ (by omega))]
  simp only [Option.bind_eq_bind, Option.some_bind']
  rw [detonate_cell_eq _ ⟨e.row + 1, e.col⟩ (hH _ (by (try dsimp only); omega)) (hW _ (by (try dsimp only); omega))]
  simp only [Option.bind_eq_bind, Option.some_bind']
  rw [detonate_cell_eq _ ⟨e.row, e.col + 1⟩ (hH _ (by (try dsimp only); omega)) (hW _ (by (try dsimp only); omega))]
  simp only [Option.bind_eq_bind, Option.some_bind']
  rw [u8_pred_pos h1]
  simp only [Option.bind_eq_bind, Option.some_bind']
  rw [detonate_cell_eq _ ⟨e.row - 1, e.col⟩ (hH _ (by (try dsimp only); omega)) (hW _ (by (try dsimp only); omega))]
  simp only [Option.bind_eq_bind, Option.some_bind']
  rw [u8_pred_pos h3]
  simp only [Option.bind_eq_bind, Option.some_bind']
  rw [detonate_cell_eq _ ⟨e.row, e.col - 1⟩ (hH _ (by (try dsimp only); omega)) (hW _ (by (try dsimp only); omega))]
  simp only [Option.bind_eq_bind, Option.some_bind']
  rw [detonate_cell_eq _ ⟨e.row + 1, e.col + 1⟩ (hH _ (by (try dsimp only); omega)) (hW _ (by (try dsimp only); omega))]
  simp only [Option.bind_eq_bind, Option.some_bind']
  rw [detonate_cell_eq _ ⟨e.row + 1, e.col - 1⟩ (hH _ (by (try dsimp only); omega)) (hW _ (by (try dsimp only); omega))]
  simp only [Option.bind_eq_bind, Option.some_bind']
  rw [detonate_cell_eq _ ⟨e.row - 1, e.col + 1⟩ (hH _ (by (try dsimp only); omega)) (hW _ (by (try dsimp only); omega))]
  simp only [Option.bind_eq_bind, Option.some_bind']
  rw [detonate_cell_eq _ ⟨e.row - 1, e.col - 1⟩ (hH _ (by (try dsimp only); omega)) (hW _ (by (try dsimp only); omega))]
  simp [clear_many, affected_set]

/-- The affected set of an in-bounds level-One detonation has no duplicates. -/
lemma affected_one_nodup (e : Coordinates) : (affected_set .One e).Nodup := by
  simp [affected_set]

/-- The affected set of an in-bounds level-Two detonation has no duplicates. -/
lemma affected_two_nodup (e : Coordinates) (h : explode_in_bounds .Two e) :
    (affected_set .Two e).Nodup := by
  have hb : 1 ≤ e.row ∧ e.row ≤ 8 ∧ 1 ≤ e.col ∧ e.col ≤ 8 := by
    unfold explode_in_bounds BOARD_HEIGHT BOARD_WIDTH at h
    exact_mod_cast h
  obtain ⟨r, c⟩ := e
  simp only [affected_set, List.nodup_cons, List.mem_cons, List.not_mem_nil,
    List.nodup_nil, Coordinates.mk.injEq, not_or, or_false, and_true, true_and,
    not_false_eq_true] at *
  omega

/-- The affected set of an in-bounds level-Three detonation has no
duplicates. -/
lemma affected_three_nodup (e : Coordinates) (h : explode_in_bounds .Three e) :
    (affected_set .Three e).Nodup := by
  have hb : 1 ≤ e.row ∧ e.row ≤ 8 ∧ 1 ≤ e.col ∧ e.col ≤ 8 := by
    unfold explode_in_bounds BOARD_HEIGHT BOARD_WIDTH at h
    exact_mod_cast h
  obtain ⟨r, c⟩ := e
  simp only [affected_set, List.nodup_cons, List.mem_cons, List.not_mem_nil,
    List.nodup_nil, Coordinates.mk.injEq, not_or, or_false, and_true, true_and,
    not_false_eq_true] at *
  omega

/-- **C6** (amended): for a detonation whose affected neighbourhood lies
within the board (any in-board epicenter at level One; an epicenter with row
and column in `[1,8]` at levels Two/Three — outside that range the engine
aborts, as the counterexample shows), the area effect acts cell-wise as the
claim states: every stone of the affected set becomes empty, and every other
cell — blocks, empty cells, and all cells outside the set — is unchanged. -/
theorem C6_area_effect {P H : Type} (s : GameState P H) (lvl : PowerLevel)
    (e : Coordinates) (h : explode_in_bounds lvl e) :
    ∃ s', explode lvl s e = some s' ∧
      ∀ p : Coordinates,
        s'.board p =
          if p ∈ affected_set lvl e ∧ (s.board p).is_stone then Cell.Empty
          else s.board p := by
  cases lvl with
  | One =>
      exact ⟨_, explode_one_eq s e h, fun p =>
        clear_many_spec _ s.board p (affected_one_nodup e)⟩
  | Two =>
      exact ⟨_, explode_two_eq s e h, fun p =>
        clear_many_spec _ s.board p (affected_two_nodup e h)⟩
  | Three =>
      exact ⟨_, explode_three_eq s e h, fun p =>
        clear_many_spec _ s.board p (affected_three_nodup e h)⟩

/-- **C6 witness**: a level-Two explosion at the interior epicenter `(5,5)`
of `c6_wit_state` is in bounds and produces a state. -/
theorem C6_witness :
    explode_in_bounds PowerLevel.Two ⟨5, 5⟩ ∧
    (explode PowerLevel.Two c6_wit_state ⟨5, 5⟩).isSome = true := by
  have hb : explode_in_bounds PowerLevel.Two ⟨5, 5⟩ := by
    norm_num [explode_in_bounds, BOARD_HEIGHT, BOARD_WIDTH]
  refine ⟨hb, ?_⟩
  obtain ⟨s', hs, -⟩ := C6_area_effect c6_wit_state .Two ⟨5, 5⟩ hb
  rw [hs]
  rfl

/-- Index-0 and index-1 reductions of the scan accessors. -/
lemma squares_get_zero (sq : Nat × Nat) : squares_get sq 0 = some sq.1 := rfl

lemma squares_get_one (sq : Nat × Nat) : squares_get sq 1 = some sq.2 := rfl

lemma squares_set_zero (sq : Nat × Nat) (n : Nat) : squares_set sq 0 n = (n, sq.2) := rfl

lemma squares_set_one (sq : Nat × Nat) (n : Nat) : squares_set sq 1 n = (sq.1, n) := rfl

lemma players_get_zero {P : Type} (ps : P × P) : players_get ps 0 = some ps.1 := rfl

lemma players_get_one {P : Type} (ps : P × P) : players_get ps 1 = some ps.2 := rfl

/-- One row of the winner scan never decreases the square counts and
preserves the scan invariant. -/
lemma win_scan_row_inv {P : Type} (b : Board) (ps : P × P) (row : Nat) :
    ∀ (cs : List Nat) (sq : Nat × Nat) (w : Option P) (sq' : Nat × Nat)
      (w' : Option P),
    win_scan_row b ps row cs sq w = some (sq', w') →
    (sq.1 ≤ sq'.1 ∧ sq.2 ≤ sq'.2) ∧ (win_inv ps sq w → win_inv ps sq' w') := by
  intro cs
  induction cs with
  | nil =>
      intro sq w sq' w' h
      simp only [win_scan_row, Option.some.injEq, Prod.mk.injEq] at h
      obtain ⟨⟨rfl, rfl⟩, rfl⟩ := h
      exact ⟨⟨le_refl _, le_refl _⟩, id⟩
  | cons c cs ih =>
      intro sq w sq' w' h
      cases hcell : b ⟨row, c⟩ with
      | Empty => simp only [win_scan_row, hcell] at h; exact ih sq w sq' w' h
      | Block => simp only [win_scan_row, hcell] at h; exact ih sq w sq' w' h
      | Stone k =>
          simp only [win_scan_row, hcell] at h
          by_cases hu : b ⟨row, c + 1⟩ = Cell.Stone k ∧ b ⟨row + 1, c⟩ = Cell.Stone k ∧
              b ⟨row + 1, c + 1⟩ = Cell.Stone k
          · rw [if_pos hu] at h
            by_cases hk0 : k = 0
            · subst hk0
              rw [squares_get_zero] at h
              dsimp only at h
              by_cases hge : sq.1 + 1 ≥ 3
              · rw [if_pos hge, players_get_zero] at h
                dsimp only at h
                rw [squares_set_zero] at h
                simp only [Option.some.injEq, Prod.mk.injEq] at h
                obtain ⟨rfl, rfl⟩ := h
                refine ⟨⟨Nat.le_succ _, le_refl _⟩, fun _ => ?_⟩
                constructor
                · intro hc; exact absurd hc (by simp)
                · intro x hx
                  exact Or.inl ⟨(Option.some.inj hx).symm, hge⟩
              · rw [if_neg hge, squares_set_zero] at h
                have hm := ih (sq.1 + 1, sq.2) w sq' w' h
                refine ⟨⟨le_trans (Nat.le_succ _) hm.1.1, hm.1.2⟩,
                  fun hinv => hm.2 ⟨?_, ?_⟩⟩
                · intro hw
                  obtain ⟨ha, hb⟩ := hinv.1 hw
                  exact ⟨by omega, hb⟩
                · intro x hx
                  rcases hinv.2 x hx with ⟨hx1, hx2⟩ | ⟨hx1, hx2⟩
                  · exact Or.inl ⟨hx1, by omega⟩
                  · exact Or.inr ⟨hx1, hx2⟩
            · by_cases hk1 : k = 1
              · subst hk1
                rw [squares_get_one] at h
                dsimp only at h
                by_cases hge : sq.2 + 1 ≥ 3
                · rw [if_pos hge, players_get_one] at h
                  dsimp only at h
                  rw [squares_set_one] at h
                  simp only [Option.some.injEq, Prod.mk.injEq] at h
                  obtain ⟨rfl, rfl⟩ := h
                  refine ⟨⟨le_refl _, Nat.le_succ _⟩, fun _ => ?_⟩
                  constructor
                  · intro hc; exact absurd hc (by simp)
                  · intro x hx
                    exact Or.inr ⟨(Option.some.inj hx).symm, hge⟩
                · rw [if_neg hge, squares_set_one] at h
                  have hm := ih (sq.1, sq.2 + 1) w sq' w' h
                  refine ⟨⟨hm.1.1, le_trans (Nat.le_succ _) hm.1.2⟩,
                    fun hinv => hm.2 ⟨?_, ?_⟩⟩
                  · intro hw
                    obtain ⟨ha, hb⟩ := hinv.1 hw
                    exact ⟨ha, by omega⟩
                  · intro x hx
                    rcases hinv.2 x hx with ⟨hx1, hx2⟩ | ⟨hx1, hx2⟩
                    · exact Or.inl ⟨hx1, hx2⟩
                    · exact Or.inr ⟨hx1, by omega⟩
              · have hsg : squares_get sq k = none := by
                  unfold squares_get
                  rw [if_neg hk0, if_neg hk1]
                rw [hsg] at h
                dsimp only at h
                exact absurd h (by simp)
          · rw [if_neg hu] at h
            exact ih sq w sq' w' h

/-- The full winner scan never decreases the counts and preserves the scan
invariant. -/
lemma win_scan_rows_inv {P : Type} (b : Board) (ps : P × P) :
    ∀ (rs : List Nat) (sq : Nat × Nat) (w : Option P) (sq' : Nat × Nat)
      (w' : Option P),
    win_scan_rows b ps rs sq w = some (sq', w') →
    (sq.1 ≤ sq'.1 ∧ sq.2 ≤ sq'.2) ∧ (win_inv ps sq w → win_inv ps sq' w') := by
  intro rs
  induction rs with
  | nil =>
      intro sq w sq' w' h
      simp only [win_scan_rows, Option.some.injEq, Prod.mk.injEq] at h
      obtain ⟨⟨rfl, rfl⟩, rfl⟩ := h
      exact ⟨⟨le_refl _, le_refl _⟩, id⟩
  | cons r rs ih =>
      intro sq w sq' w' h
      simp only [win_scan_rows] at h
      cases hrow : win_scan_row b ps r (List.range (BOARD_WIDTH - 1)) sq w with
      | none => rw [hrow] at h; exact absurd h (by simp)
      | some x =>
          obtain ⟨sq1, w1⟩ := x
          rw [hrow] at h
          have h1 := win_scan_row_inv b ps r _ sq w sq1 w1 hrow
          have h2 := ih sq1 w1 sq' w' h
          exact ⟨⟨le_trans h1.1.1 h2.1.1, le_trans h1.1.2 h2.1.2⟩,
            fun hinv => h2.2 (h1.2 hinv)⟩

/-- **C1** (amended): after a stone drop, the detector scans the 2×2 windows
in row-major order keeping per-player counts; when a player's count reaches 3
that player is recorded as winner and only the rest of the current row is
skipped — the scan continues on later rows, so a subsequent third window of
the other player overwrites the record (the counterexample shows the
reversal).  Consequently, when exactly one player's count reaches 3 during
the scan that player is the winner, and nobody wins while both counts stay
below 3. -/
theorem C1_scan_sole_reacher_wins {P H : Type} (s : GameState P H)
    (sq : Nat × Nat) (w : Option P) (hwin : s.winner = none)
    (h : win_scan_rows s.board s.players (List.range (BOARD_HEIGHT - 1))
      (0, 0) none = some (sq, w)) :
    check_winner_player s = some { s with winner := w } ∧
    (3 ≤ sq.1 → sq.2 < 3 → w = some s.players.1) ∧
    (3 ≤ sq.2 → sq.1 < 3 → w = some s.players.2) ∧
    (sq.1 < 3 → sq.2 < 3 → w = none) := by
  have h0 : win_inv s.players (0, 0) none :=
    ⟨fun _ => ⟨by omega, by omega⟩, fun x hx => nomatch hx⟩
  have hinv := (win_scan_rows_inv s.board s.players _ (0, 0) none sq w h).2 h0
  obtain ⟨hnone, hsome⟩ := hinv
  refine ⟨by unfold check_winner_player; rw [hwin, h]; rfl, ?_, ?_, ?_⟩
  · intro h1 h2
    cases hw : w with
    | none => exact absurd (hnone hw).1 (by omega)
    | some x =>
        rcases hsome x hw with ⟨rfl, _⟩ | ⟨rfl, hge⟩
        · rfl
        · exact absurd hge (by omega)
  · intro h1 h2
    cases hw : w with
    | none => exact absurd (hnone hw).2 (by omega)
    | some x =>
        rcases hsome x hw with ⟨rfl, hge⟩ | ⟨rfl, _⟩
        · exact absurd hge (by omega)
        · rfl
  · intro h1 h2
    cases hw : w with
    | none => rfl
    | some x =>
        rcases hsome x hw with ⟨rfl, hge⟩ | ⟨rfl, hge⟩
        · exact absurd hge (by omega)
        · exact absurd hge (by omega)

/-- **C1 witness**: on a board where only player 11 (index 0) has scoring
windows — three of them — the scan's counts end at `(3,0)` and the sole
reacher 11 is the winner. -/
theorem C1_witness :
    win_scan_rows (base_state c1_wit_board).board (base_state c1_wit_board).players
      (List.range (BOARD_HEIGHT - 1)) (0, 0) none = some ((3, 0), some 11) ∧
    (some 11 : Option Nat) = some 11 :=
  ⟨rfl, (C1_scan_sole_reacher_wins (base_state c1_wit_board) (3, 0) (some 11)
    rfl rfl).2.1 (by omega) (by omega)⟩

lemma non_board_eq_refl {P H : Type} (s : GameState P H) : non_board_eq s s :=
  ⟨rfl, rfl, rfl, rfl, rfl, rfl, rfl⟩

lemma non_board_eq_trans {P H : Type} {s t u : GameState P H}
    (h1 : non_board_eq s t) (h2 : non_board_eq t u) : non_board_eq s u := by
  obtain ⟨a1, a2, a3, a4, a5, a6, a7⟩ := h1
  obtain ⟨b1, b2, b3, b4, b5, b6, b7⟩ := h2
  exact ⟨b1.trans a1, b2.trans a2, b3.trans a3, b4.trans a4, b5.trans a5,
    b6.trans a6, b7.trans a7⟩

/-- `detonate_cell` only rewrites a board cell. -/
lemma detonate_cell_non_board {P H : Type} {s s1 : GameState P H}
    {q : Coordinates} (h : detonate_cell s q = some s1) : non_board_eq s s1 := by
  unfold detonate_cell at h
  cases hg : Board.get_cell? s.board q with
  | none => rw [hg] at h; exact absurd h (by simp)
  | some c =>
      rw [hg] at h
      dsimp only at h
      by_cases hs : c.is_stone = true
      · rw [if_pos hs] at h
        cases Option.some.inj h
        exact ⟨rfl, rfl, rfl, rfl, rfl, rfl, rfl⟩
      · rw [if_neg hs] at h
        cases Option.some.inj h
        exact non_board_eq_refl s

/-- `explode` only rewrites board cells. -/
lemma explode_non_board {P H : Type} {lvl : PowerLevel} {s s1 : GameState P H}
    {e : Coordinates} (h : explode lvl s e = some s1) : non_board_eq s s1 := by
  cases lvl with
  | One =>
      unfold explode at h
      dsimp only at h
      simp only [Option.bind_eq_bind, Option.bind_eq_some'] at h
      obtain ⟨a, ha, haa⟩ := h
      cases Option.some.inj haa
      exact detonate_cell_non_board ha
  | Two =>
      unfold explode explode_ortho at h
      dsimp only at h
      simp only [Option.bind_eq_bind, Option.bind_eq_some'] at h
      obtain ⟨a, ha, b, hb, c', hc, r1, hr1, d, hd, c1, hc1, he⟩ := h
      exact non_board_eq_trans (detonate_cell_non_board ha)
        (non_board_eq_trans (detonate_cell_non_board hb)
          (non_board_eq_trans (detonate_cell_non_board hc)
            (non_board_eq_trans (detonate_cell_non_board hd)
              (detonate_cell_non_board he))))
  | Three =>
      unfold explode explode_ortho explode_diag at h
      dsimp only at h
      simp only [Option.bind_eq_bind, Option.bind_eq_some'] at h
      obtain ⟨a, ha, m, ⟨b, hb, c', hc, r1, hr1, d, hd, c1, hc1, hm⟩,
        g, hg, c2, hc2, u, hu, r2, hr2, v, hv, he⟩ := h
      exact non_board_eq_trans (detonate_cell_non_board ha)
        (non_board_eq_trans (detonate_cell_non_board hb)
          (non_board_eq_trans (detonate_cell_non_board hc)
            (non_board_eq_trans (detonate_cell_non_board hd)
              (non_board_eq_trans (detonate_cell_non_board hm)
                (non_board_eq_trans (detonate_cell_non_board hg)
                  (non_board_eq_trans (detonate_cell_non_board hu)
                    (non_board_eq_trans (detonate_cell_non_board hv)
                      (detonate_cell_non_board he))))))))

/-- A `player_index` result is always 0 or 1. -/
lemma player_index_range {P H : Type} [DecidableEq P] {s : GameState P H}
    {p : P} {i : Nat} (h : s.player_index p = some i) : i = 0 ∨ i = 1 := by
  unfold GameState.player_index at h
  split_ifs at h with h1 h2
  · exact Or.inl (Option.some.inj h).symm
  · exact Or.inr (Option.some.inj h).symm

/-- Reading back the list just written by `set_bombs_at`. -/
lemma bombs_at_set_self {P H : Type} (s : GameState P H) (i : Nat) (l : List H) :
    (s.set_bombs_at i l).bombs_at i = l := by
  unfold GameState.set_bombs_at GameState.bombs_at
  by_cases hi : i = 0 <;> simp [hi]

/-- `set_bombs_at` leaves the other player's list unchanged. -/
lemma bombs_at_set_other {P H : Type} (s : GameState P H) (i : Nat) (l : List H)
    (hi : i = 0 ∨ i = 1) : (s.set_bombs_at i l).bombs_at (1 - i) = s.bombs_at (1 - i) := by
  unfold GameState.set_bombs_at GameState.bombs_at
  rcases hi with rfl | rfl <;> simp

/-- `set_bombs_at` changes no field other than `bombs_placed`. -/
lemma set_bombs_at_fields {P H : Type} (s : GameState P H) (i : Nat) (l : List H) :
    (s.set_bombs_at i l).seed = s.seed ∧
    (s.set_bombs_at i l).winner = s.winner ∧
    (s.set_bombs_at i l).next_player = s.next_player ∧
    (s.set_bombs_at i l).players = s.players ∧
    (s.set_bombs_at i l).bomb_energy = s.bomb_energy ∧
    (s.set_bombs_at i l).last_move = s.last_move := by
  unfold GameState.set_bombs_at
  by_cases hi : i = 0 <;> simp [hi]

/-- `next_player_of` depends only on `players` and `next_player`, so
`set_bombs_at` does not affect it. -/
lemma next_player_of_set_bombs {P H : Type} [DecidableEq P] (s : GameState P H)
    (i : Nat) (l : List H) :
    (s.set_bombs_at i l).next_player_of = s.next_player_of := by
  obtain ⟨-, -, h3, h4, -, -⟩ := set_bombs_at_fields s i l
  unfold GameState.next_player_of
  rw [h3, h4]

/-- The advanced `next_player` differs from the current one when the two
players are distinct. -/
lemma next_player_of_ne {P H : Type} [DecidableEq P] {s : GameState P H}
    {np : P} (h : s.next_player_of = some np)
    (hd : s.players.1 ≠ s.players.2) : np ≠ s.next_player := by
  unfold GameState.next_player_of at h
  split_ifs at h with h1 h2
  · cases Option.some.inj h
    intro hc
    exact hd (h1.trans hc.symm)
  · cases Option.some.inj h
    intro hc
    exact hd (hc.trans h2.symm)

/-- Success inversion for `place_bomb`. -/
lemma place_bomb_ok_inv {P H S : Type} [DecidableEq P] [DecidableEq H]
    (hashC : Coordinates → S → H) {s s' : GameState P H} {p : P}
    {c : Coordinates} {salt : S}
    (h : place_bomb hashC s p c salt = some (.ok s')) :
    ∃ i np, s.player_index p = some i ∧ s.winner = none ∧ s.next_player = p ∧
      hashC c salt ∉ s.bombs_at i ∧
      (s.set_bombs_at i (s.bombs_at i ++ [hashC c salt])).next_player_of = some np ∧
      s' = { s.set_bombs_at i (s.bombs_at i ++ [hashC c salt]) with
             next_player := np } := by
  unfold place_bomb at h
  cases hcp : can_place_bomb s p with
  | none => rw [hcp] at h; exact absurd h (by simp)
  | some r =>
      rw [hcp] at h
      cases r with
      | error e => exact absurd h (by simp)
      | ok u =>
          dsimp only at h
          cases hidx : s.player_index p with
          | none => rw [hidx] at h; exact absurd h (by simp)
          | some i =>
              rw [hidx] at h
              dsimp only at h
              have hwn : s.winner = none := by
                cases hwin : s.winner with
                | none => rfl
                | some x =>
                    unfold can_place_bomb at hcp
                    rw [hwin] at hcp
                    exact absurd hcp (by simp)
              have htn : s.next_player = p := by
                by_cases ht : s.is_player_turn p = true
                · have ht' := ht
                  unfold GameState.is_player_turn at ht'
                  exact of_decide_eq_true ht'
                · unfold can_place_bomb at hcp
                  rw [hwn] at hcp
                  rw [if_neg (by simp)] at hcp
                  rw [if_pos (by simpa using ht)] at hcp
                  exact absurd hcp (by simp)
              have hwt : s.winner = none ∧ s.next_player = p := ⟨hwn, htn⟩
              by_cases hmem : hashC c salt ∈ s.bombs_at i
              · rw [if_pos hmem] at h; exact absurd h (by simp)
              · rw [if_neg hmem] at h
                by_cases hfull : (s.bombs_at i).length ≥ BOMB_AMOUNT_PER_PLAYER
                · rw [if_pos hfull] at h; exact absurd h (by simp)
                · rw [if_neg hfull] at h
                  cases hnp : (s.set_bombs_at i (s.bombs_at i ++ [hashC c salt])).next_player_of with
                  | none => rw [hnp] at h; exact absurd h (by simp)
                  | some np =>
                      rw [hnp] at h
                      dsimp only at h
                      obtain rfl : _ = s' := Except.ok.inj (Option.some.inj h)
                      exact ⟨i, np, rfl, hwt.1, hwt.2, hmem, hnp, rfl⟩

/-- Success inversion for `detonate_bomb`. -/
lemma detonate_bomb_ok_inv {P H S : Type} [DecidableEq P] [DecidableEq H]
    (hashC : Coordinates → S → H) {s s' : GameState P H} {p : P}
    {c : Coordinates} {salt : S} {lvl : PowerLevel}
    (h : detonate_bomb hashC s p c salt lvl = some (.ok s')) :
    ∃ i s1 np, s.player_index p = some i ∧ s.winner = none ∧ s.next_player = p ∧
      hashC c salt ∈ s.bombs_at i ∧
      explode lvl s c = some s1 ∧
      ((decrease_bomb_energy lvl s1 p).set_bombs_at i
        (((decrease_bomb_energy lvl s1 p).bombs_at i).filter
          fun x => x ≠ hashC c salt)).next_player_of = some np ∧
      s' = { (decrease_bomb_energy lvl s1 p).set_bombs_at i
              (((decrease_bomb_energy lvl s1 p).bombs_at i).filter
                fun x => x ≠ hashC c salt) with
             next_player := np } := by
  unfold detonate_bomb at h
  cases hidx : s.player_index p with
  | none => rw [hidx] at h; exact absurd h (by simp)
  | some i =>
      rw [hidx] at h
      dsimp only at h
      by_cases hmem : hashC c salt ∈ s.bombs_at i
      · rw [if_neg (by simpa using hmem)] at h
        cases hcd : can_detonate_bomb s p lvl with
        | error e => rw [hcd] at h; exact absurd h (by simp)
        | ok u =>
            rw [hcd] at h
            dsimp only at h
            have hwn : s.winner = none := by
              cases hwin : s.winner with
              | none => rfl
              | some x =>
                  unfold can_detonate_bomb at hcd
                  rw [hwin] at hcd
                  exact absurd hcd (by simp)
            have htn : s.next_player = p := by
              by_cases ht : s.is_player_turn p = true
              · have ht' := ht
                unfold GameState.is_player_turn at ht'
                exact of_decide_eq_true ht'
              · unfold can_detonate_bomb at hcd
                rw [hwn] at hcd
                rw [if_neg (by simp)] at hcd
                rw [if_pos (by simpa using ht)] at hcd
                exact absurd hcd (by simp)
            have hwt : s.winner = none ∧ s.next_player = p := ⟨hwn, htn⟩
            cases hex : explode lvl s c with
            | none => rw [hex] at h; exact absurd h (by simp)
            | some s1 =>
                rw [hex] at h
                dsimp only at h
                cases hnp : ((decrease_bomb_energy lvl s1 p).set_bombs_at i
                    (((decrease_bomb_energy lvl s1 p).bombs_at i).filter
                      fun x => x ≠ hashC c salt)).next_player_of with
                | none => rw [hnp] at h; exact absurd h (by simp)
                | some np =>
                    rw [hnp] at h
                    dsimp only at h
                    obtain rfl : _ = s' := Except.ok.inj (Option.some.inj h)
                    exact ⟨i, s1, np, rfl, hwt.1, hwt.2, hmem, rfl, hnp, rfl⟩
      · rw [if_pos (by simpa using hmem)] at h
        exact absurd h (by simp)

/-- **C9**: a successful `detonate_bomb` removes exactly the one matching
commitment from the mover's pending list — the list becomes the input list
with that hash erased and its length drops by exactly one — while the other
player's list is unchanged.  The no-duplicates hypothesis holds in every
reachable state because `place_bomb` refuses to push a hash already present
(see `place_bomb_keeps_nodup`). -/
theorem C9_detonate_removes_exactly_one {P H S : Type} [DecidableEq P]
    [DecidableEq H] (hashC : Coordinates → S → H) (s s' : GameState P H)
    (p : P) (c : Coordinates) (salt : S) (lvl : PowerLevel) (i : Nat)
    (hidx : s.player_index p = some i) (hnd : (s.bombs_at i).Nodup)
    (h : detonate_bomb hashC s p c salt lvl = some (.ok s')) :
    s'.bombs_at i = (s.bombs_at i).erase (hashC c salt) ∧
    (s'.bombs_at i).length + 1 = (s.bombs_at i).length ∧
    s'.bombs_at (1 - i) = s.bombs_at (1 - i) := by
  obtain ⟨i', s1, np, hidx', hw, ht, hmem, hex, hnp, hs'⟩ :=
    detonate_bomb_ok_inv hashC h
  have hi : i = i' := by rw [hidx] at hidx'; exact Option.some.inj hidx'
  subst hi
  subst hs'
  have hb1 : s1.bombs_placed = s.bombs_placed :=
    (explode_non_board hex).2.2.2.2.2.1
  have hba : ∀ j, (decrease_bomb_energy lvl s1 p).bombs_at j = s.bombs_at j := by
    intro j
    unfold GameState.bombs_at
    show (if j = 0 then s1.bombs_placed.1 else s1.bombs_placed.2) = _
    rw [hb1]
  have hfil : ({ (decrease_bomb_energy lvl s1 p).set_bombs_at i
        (((decrease_bomb_energy lvl s1 p).bombs_at i).filter
          fun x => x ≠ hashC c salt) with next_player := np }).bombs_at i =
      ((s.bombs_at i).filter fun x => x ≠ hashC c salt) := by
    show ((decrease_bomb_energy lvl s1 p).set_bombs_at i
        (((decrease_bomb_energy lvl s1 p).bombs_at i).filter
          fun x => x ≠ hashC c salt)).bombs_at i = _
    rw [bombs_at_set_self, hba]
  have herase : (s.bombs_at i).erase (hashC c salt) =
      ((s.bombs_at i).filter fun x => x ≠ hashC c salt) := by
    rw [hnd.erase_eq_filter]
    apply List.filter_congr
    intro a _
    by_cases hax : a = hashC c salt <;> simp [hax]
  refine ⟨by rw [hfil, herase], ?_, ?_⟩
  · rw [hfil, ← herase]
    exact List.length_erase_add_one hmem
  · show ((decrease_bomb_energy lvl s1 p).set_bombs_at i
        (((decrease_bomb_energy lvl s1 p).bombs_at i).filter
          fun x => x ≠ hashC c salt)).bombs_at (1 - i) = _
    rw [bombs_at_set_other _ _ _ (player_index_range hidx), hba]

/-- `place_bomb` keeps the pending-commitment lists duplicate-free (it
rejects a hash already present), so the no-duplicate hypothesis of C9 holds
in every reachable state: lists start empty at `new_game`, `place_bomb`
preserves the property, and removals cannot introduce duplicates. -/
lemma place_bomb_keeps_nodup {P H S : Type} [DecidableEq P] [DecidableEq H]
    (hashC : Coordinates → S → H) {s s' : GameState P H} {p : P}
    {c : Coordinates} {salt : S}
    (hnd0 : s.bombs_placed.1.Nodup) (hnd1 : s.bombs_placed.2.Nodup)
    (h : place_bomb hashC s p c salt = some (.ok s')) :
    s'.bombs_placed.1.Nodup ∧ s'.bombs_placed.2.Nodup := by
  obtain ⟨i, np, hidx, hw, ht, hmem, hnp, hs'⟩ := place_bomb_ok_inv hashC h
  subst hs'
  show ((s.set_bombs_at i (s.bombs_at i ++ [hashC c salt])).bombs_placed.1.Nodup ∧
    (s.set_bombs_at i (s.bombs_at i ++ [hashC c salt])).bombs_placed.2.Nodup)
  unfold GameState.set_bombs_at GameState.bombs_at
  unfold GameState.bombs_at at hmem
  by_cases hi : i = 0
  · simp only [hi, if_true, reduceIte] at hmem ⊢
    exact ⟨hnd0.append (List.nodup_singleton _)
      (List.disjoint_singleton.mpr hmem), hnd1⟩
  · simp only [hi, if_false, reduceIte] at hmem ⊢
    exact ⟨hnd0, hnd1.append (List.nodup_singleton _)
      (List.disjoint_singleton.mpr hmem)⟩

/-- **C9 witness**: detonating the single commitment of `c9_wit_state`
empties the mover's list and leaves the opponent's list untouched. -/
theorem C9_witness :
    detonate_bomb hashN c9_wit_state 11 ⟨5, 5⟩ 7 .One = some (.ok c9_wit_result) ∧
    c9_wit_result.bombs_at 0 = (c9_wit_state.bombs_at 0).erase (hashN ⟨5, 5⟩ 7) ∧
    (c9_wit_result.bombs_at 0).length + 1 = (c9_wit_state.bombs_at 0).length ∧
    c9_wit_result.bombs_at 1 = c9_wit_state.bombs_at 1 :=
  ⟨rfl, C9_detonate_removes_exactly_one hashN c9_wit_state c9_wit_result 11
    ⟨5, 5⟩ 7 .One 0 rfl (by decide) rfl⟩

/-- **C10**: a successful `place_bomb` or `detonate_bomb` leaves `last_move`
exactly as it was (only `drop_stone` records a move), so the adapter's
`get_last_player` on the resulting state returns the player of the most
recent stone drop, or the next-to-move player of the resulting state when no
stone was ever dropped — which is never the player who made the bomb move
(for distinct players). -/
theorem C10_bomb_moves_preserve_last_move {P H S : Type} [DecidableEq P]
    [DecidableEq H] (hashC : Coordinates → S → H) (s s' : GameState P H)
    (p : P) (c : Coordinates) (salt : S) (lvl : PowerLevel) :
    (place_bomb hashC s p c salt = some (.ok s') →
      s'.last_move = s.last_move ∧
      get_last_player s' =
        (match s.last_move with
          | some lm => lm.player
          | none => s'.next_player) ∧
      (s.last_move = none → s.players.1 ≠ s.players.2 →
        get_last_player s' ≠ p)) ∧
    (detonate_bomb hashC s p c salt lvl = some (.ok s') →
      s'.last_move = s.last_move ∧
      get_last_player s' =
        (match s.last_move with
          | some lm => lm.player
          | none => s'.next_player) ∧
      (s.last_move = none → s.players.1 ≠ s.players.2 →
        get_last_player s' ≠ p)) := by
  constructor
  · intro h
    obtain ⟨i, np, hidx, hw, ht, hmem, hnp, hs'⟩ := place_bomb_ok_inv hashC h
    have hf := set_bombs_at_fields s i (s.bombs_at i ++ [hashC c salt])
    subst hs'
    have hlm : ({ s.set_bombs_at i (s.bombs_at i ++ [hashC c salt]) with
        next_player := np }).last_move = s.last_move := hf.2.2.2.2.2
    refine ⟨hlm, ?_, ?_⟩
    · unfold get_last_player
      rw [hlm]
    · intro hnone hdist
      have hne := next_player_of_ne hnp (by rw [hf.2.2.2.1]; exact hdist)
      rw [hf.2.2.1, ht] at hne
      unfold get_last_player
      rw [hlm, hnone]
      exact hne
  · intro h
    obtain ⟨i, s1, np, hidx, hw, ht, hmem, hex, hnp, hs'⟩ :=
      detonate_bomb_ok_inv hashC h
    have hf := set_bombs_at_fields (decrease_bomb_energy lvl s1 p) i
      (((decrease_bomb_energy lvl s1 p).bombs_at i).filter
        fun x => x ≠ hashC c salt)
    have hlm1 : s1.last_move = s.last_move := (explode_non_board hex).2.2.2.2.2.2
    subst hs'
    have hlm : ({ (decrease_bomb_energy lvl s1 p).set_bombs_at i
        (((decrease_bomb_energy lvl s1 p).bombs_at i).filter
          fun x => x ≠ hashC c salt) with next_player := np }).last_move =
        s.last_move := by
      show ((decrease_bomb_energy lvl s1 p).set_bombs_at i
        (((decrease_bomb_energy lvl s1 p).bombs_at i).filter
          fun x => x ≠ hashC c salt)).last_move = s.last_move
      rw [hf.2.2.2.2.2]
      exact hlm1
    refine ⟨hlm, ?_, ?_⟩
    · unfold get_last_player
      rw [hlm]
    · intro hnone hdist
      have hps1 : s1.players = s.players := (explode_non_board hex).2.2.2.1
      have hns1 : s1.next_player = s.next_player := (explode_non_board hex).2.2.1
      have hne := next_player_of_ne hnp (by
        rw [hf.2.2.2.1]
        show s1.players.1 ≠ s1.players.2
        rw [hps1]
        exact hdist)
      rw [hf.2.2.1] at hne
      have hne2 : np ≠ p := by
        intro hc
        apply hne
        rw [hc]
        show p = s1.next_player
        rw [hns1, ht]
      unfold get_last_player
      rw [hlm, hnone]
      exact hne2

/-- **C10 witness**: a bomb placement and a detonation both leave the
recorded last move (a stone drop by player 22) untouched, and
`get_last_player` keeps answering 22, not the bomb mover 11. -/
theorem C10_witness :
    place_bomb hashN c10_wit_state 11 ⟨2, 2⟩ 5 = some (.ok c10_wit_result) ∧
    c10_wit_result.last_move = c10_wit_state.last_move ∧
    get_last_player c10_wit_result = 22 ∧
    detonate_bomb hashN c10_det_state 11 ⟨5, 5⟩ 7 .One = some (.ok c10_det_result) ∧
    c10_det_result.last_move = c10_det_state.last_move := by
  have h1 := (C10_bomb_moves_preserve_last_move hashN c10_wit_state
    c10_wit_result 11 ⟨2, 2⟩ 5 .One).1 rfl
  have h2 := (C10_bomb_moves_preserve_last_move hashN c10_det_state
    c10_det_result 11 ⟨5, 5⟩ 7 .One).2 rfl
  exact ⟨rfl, h1.1, h1.2.1, rfl, h2.1⟩

end Dot4Gravity
